import Mathlib

set_option linter.unusedVariables false
set_option maxRecDepth 100000

namespace ZKStats

/-- Characters of a JavaScript string, modelled as a list of characters. -/
abbrev Str := List Char

/-- Embed a Lean string literal as a character list. -/
def str (s : String) : Str := s.data

/-- A note supplied by the host application ("The Archive"): raw text content
and a filename (main.js reads `note.content` and `note.filename`). -/
structure Note where
  content : Str
  filename : Str

/-- The JavaScript whitespace class `\s` (as matched by the regex in
`countWords`, main.js line 76). -/
def isWs (c : Char) : Bool :=
  c == ' ' || c == '\t' || c == '\n' || c == '\u000B' || c == '\u000C' || c == '\r' ||
  c == '\u00A0' || c == '\u1680' ||
  c == '\u2000' || c == '\u2001' || c == '\u2002' || c == '\u2003' ||
  c == '\u2004' || c == '\u2005' || c == '\u2006' || c == '\u2007' ||
  c == '\u2008' || c == '\u2009' || c == '\u200A' ||
  c == '\u2028' || c == '\u2029' || c == '\u202F' || c == '\u205F' ||
  c == '\u3000' || c == '\uFEFF'

/-- State machine computing JavaScript `text.split(/\s+/)`: `inSep` records
whether we are inside a (maximal) whitespace run, `cur` accumulates the
current token in reverse.  A leading or trailing whitespace run produces an
empty token, exactly as the JavaScript split does. -/
def splitWsAux (inSep : Bool) (cur : Str) : Str → List Str
  | [] => [cur.reverse]
  | c :: rest =>
    if isWs c then
      if inSep then splitWsAux true cur rest
      else cur.reverse :: splitWsAux true [] rest
    else splitWsAux false (c :: cur) rest

/-- JavaScript `text.split(/\s+/)` (main.js line 76). -/
def splitWs (s : Str) : List Str := splitWsAux false [] s

/-- `countWords` (main.js lines 75-77):
`text.split(/\s+/).filter(word => word.length > 0).length`. -/
def countWords (text : Str) : Nat :=
  ((splitWs text).filter (fun word => decide (word.length > 0))).length

/-- The character class `[ ,§]` of the link regex (main.js line 81). -/
def isDelim (c : Char) : Bool := c == ' ' || c == ',' || c == '§'

/-- `countLinks` (main.js lines 80-84): the number of non-overlapping matches
of `/[ ,§]\[\[/g`, scanning left to right and resuming after each 3-character
match, as `String.match` with a global regex does. -/
def countLinks : Str → Nat
  | c1 :: c2 :: c3 :: rest =>
    if isDelim c1 && c2 == '[' && c3 == '[' then 1 + countLinks rest
    else countLinks (c2 :: c3 :: rest)
  | _ => 0

/-- JavaScript `a.startsWith(b)`-style check: `prefixCheck needle hay` is true
iff `needle` is an initial segment of `hay`. -/
def prefixCheck : Str → Str → Bool
  | [], _ => true
  | _ :: _, [] => false
  | a :: as, b :: bs => a == b && prefixCheck as bs

/-- JavaScript `hay.includes(needle)` (main.js line 88): substring search. -/
def includes : Str → Str → Bool
  | [], needle => prefixCheck needle []
  | c :: rest, needle =>
    if prefixCheck needle (c :: rest) then true else includes rest needle

/-- `countProofingNotes` (main.js lines 87-89):
`notes.filter(note => note.content.includes('#proofing')).length`. -/
def countProofingNotes (notes : List Note) : Nat :=
  (notes.filter (fun note => includes note.content (str "#proofing"))).length

/-- Does the regex `/\d{12}/` match at the start of `s`?  True iff the first
12 characters exist and are all ASCII digits. -/
def digitRunAt (s : Str) : Bool :=
  (s.take 12).length == 12 && (s.take 12).all Char.isDigit

/-- `note.filename.match(/\d{12}/)` (main.js line 95): the leftmost match of
12 consecutive digits, scanning start positions left to right. -/
def match12 : Str → Option Str
  | [] => none
  | c :: rest =>
    if digitRunAt (c :: rest) then some ((c :: rest).take 12)
    else match12 rest

/-- A month-count mapping: a JavaScript object with string keys and numeric
values, modelled as an association list in key-insertion order. -/
abbrev MCounts := List (Str × Nat)

/-- `counts[key] = (counts[key] || 0) + 1` (main.js line 101) on a JavaScript
object: update the existing binding in place, or append a fresh binding. -/
def bump (counts : MCounts) (key : Str) : MCounts :=
  if (counts.lookup key).isSome then
    counts.map (fun p => if p.1 = key then (p.1, p.2 + 1) else p)
  else counts ++ [(key, 1)]

/-- `countFilesByMonth` (main.js lines 92-105): for each note, take the first
12-digit run of the filename; if present, increment the counter keyed by
`year-month` where `year` is characters 0-4 and `month` characters 4-6 of the
run; otherwise skip the note. -/
def countFilesByMonth (notes : List Note) : MCounts :=
  notes.foldl
    (fun counts note =>
      match match12 note.filename with
      | some dateStr =>
          bump counts ((dateStr.take 4) ++ str "-" ++ ((dateStr.drop 4).take 2))
      | none => counts)
    []

/-- JavaScript string comparison `a < b` (UTF-16 code-unit lexicographic, as
used by the default `Array.prototype.sort` comparator, main.js line 119). -/
def lexLt : Str → Str → Bool
  | [], [] => false
  | [], _ :: _ => true
  | _ :: _, [] => false
  | a :: as, b :: bs => if a < b then true else if b < a then false else lexLt as bs

/-- `a ≤ b` on JavaScript strings. -/
def lexLe (a b : Str) : Bool := !(lexLt b a)

/-- Insert a string into an already sorted list (helper for `sortStr`). -/
def insertStr (x : Str) : List Str → List Str
  | [] => [x]
  | y :: ys => if lexLe x y then x :: y :: ys else y :: insertStr x ys

/-- `Array.prototype.sort()` on an array of strings (main.js line 119):
produces the list sorted by `lexLe`. -/
def sortStr : List Str → List Str
  | [] => []
  | x :: xs => insertStr x (sortStr xs)

/-- `Set` insertion semantics: keep the first occurrence of each element,
drop later duplicates (helper for `dedupFirst`). -/
def dedupFirstAux (seen : List Str) : List Str → List Str
  | [] => []
  | x :: xs =>
    if x ∈ seen then dedupFirstAux seen xs
    else x :: dedupFirstAux (x :: seen) xs

/-- `Array.from(new Set(l))` (main.js lines 109-119): the distinct elements of
`l` in order of first occurrence. -/
def dedupFirst (l : List Str) : List Str := dedupFirstAux [] l

/-- The decimal digit character for `m` (clamped at `'9'`). -/
def digitCh (m : Nat) : Char :=
  match m with
  | 0 => '0' | 1 => '1' | 2 => '2' | 3 => '3' | 4 => '4'
  | 5 => '5' | 6 => '6' | 7 => '7' | 8 => '8' | _ => '9'

/-- Fuel-indexed decimal rendering of a natural number (the fuel argument
only makes the recursion structural; `natStr` always supplies enough). -/
def natStrAux : Nat → Nat → Str
  | 0, _ => []
  | fuel + 1, n =>
    if n < 10 then [digitCh n]
    else natStrAux fuel (n / 10) ++ [digitCh (n % 10)]

/-- JavaScript `String(n)` / template interpolation of a nonnegative number. -/
def natStr (n : Nat) : Str := natStrAux (n + 1) n

/-- JavaScript `s.padEnd(w)` (main.js lines 127, 132, 135): pad on the right
with spaces to length `w` (no-op when already at least that long). -/
def padEnd (s : Str) (w : Nat) : Str := s ++ List.replicate (w - s.length) ' '

/-- JavaScript `s.padStart(2, '0')` (main.js line 134). -/
def padStart2 (s : Str) : Str := List.replicate (2 - s.length) '0' ++ s

/-- The twelve month abbreviations (main.js lines 110-113). -/
def monthNames : List Str :=
  [str "Jan", str "Feb", str "Mar", str "Apr", str "May", str "Jun",
   str "Jul", str "Aug", str "Sep", str "Oct", str "Nov", str "Dec"]

/-- `counts[key] || 0` (main.js line 135): the count stored under `key`, or 0
when the key is absent. -/
def getCount (counts : MCounts) (key : Str) : Nat := (counts.lookup key).getD 0

/-- `createMonthlyTable` (main.js lines 108-141), transcribed statement by
statement: collect the distinct year prefixes of the keys, sort them, compute
the column widths (note that `maxCountWidth` is computed on line 124 but never
used afterwards, exactly as in the source), then build the header row, the
separator row, and one data row per year. -/
def createMonthlyTable (counts : MCounts) : Str :=
  let months := monthNames
  let years := sortStr (dedupFirst (counts.map (fun p => p.1.take 4)))
  let maxYearWidth := (years.map List.length).foldl max (str "Year").length
  let maxMonthWidth := (months.map List.length).foldl max 0
  let maxCountWidth := (counts.map (fun p => (natStr p.2).length)).foldl max 1
  let header :=
    str "| " ++ padEnd (str "Year") maxYearWidth ++ str " | " ++
      List.intercalate (str " | ") (months.map (fun mo => padEnd mo maxMonthWidth)) ++
      str " |" ++ str "\n"
  let sepLine :=
    str "|" ++ List.replicate (maxYearWidth + 2) '-' ++ str "|" ++
      List.intercalate (str "|") (months.map (fun _ => List.replicate (maxMonthWidth + 2) '-')) ++
      str "|" ++ str "\n"
  years.foldl
    (fun tbl year =>
      tbl ++
        ((months.enum.foldl
            (fun row mi =>
              row ++
                (str " " ++
                  padEnd (natStr (getCount counts (year ++ str "-" ++ padStart2 (natStr (mi.1 + 1))))) maxMonthWidth ++
                  str " |"))
            (str "| " ++ padEnd year maxYearWidth ++ str " |")) ++
          str "\n"))
    (header ++ sepLine)

/-- `totalNotesCount` (main.js line 72): `input.notes.all.length`. -/
def totalNotesCount (notes : List Note) : Nat := notes.length

/-- `totalWordCount` (main.js line 144):
`input.notes.all.reduce((acc, note) => acc + countWords(note.content), 0)`. -/
def totalWordCount (notes : List Note) : Nat :=
  notes.foldl (fun acc note => acc + countWords note.content) 0

/-- `totalLinkCount` (main.js line 147). -/
def totalLinkCount (notes : List Note) : Nat :=
  notes.foldl (fun acc note => acc + countLinks note.content) 0

/-- Round-to-nearest, ties-to-even integer rounding of `a / b` (the IEEE-754
default rounding applied to a scaled quotient). -/
def rne (a b : Nat) : Nat :=
  let q := a / b
  let r := a % b
  if 2 * r < b then q
  else if b < 2 * r then q + 1
  else if q % 2 = 0 then q else q + 1

/-- The least `d` with `num * 2 ^ d ≥ den`, found by doubling (the fuel
argument only makes the recursion structural; callers supply `den`, which is
always enough for `num ≥ 1`). -/
def scaleUp : Nat → Nat → Nat → Nat
  | 0, _, _ => 0
  | fuel + 1, num, den => if den ≤ num then 0 else 1 + scaleUp fuel (num * 2) den

/-- The IEEE-754 binary64 quotient `num / den`, i.e. the double produced by
the JavaScript division on line 150, returned as an exact rational `(p, q)`
with value `p / q`.  The true quotient lies in `[2 ^ e, 2 ^ (e + 1))`; it is
scaled by `2 ^ (52 - e)` into `[2 ^ 52, 2 ^ 53]` and rounded to the nearest
integer with ties to even, which is exactly the binary64 rounding of the
quotient (the operands, being JavaScript integer counts, are themselves exact
doubles). -/
def fdiv (num den : Nat) : Nat × Nat :=
  if num = 0 then (0, 1)
  else if den ≤ num then
    let e := Nat.log2 (num / den)
    if e ≤ 52 then
      let s := 52 - e
      (rne (num * 2 ^ s) den, 2 ^ s)
    else
      let s := e - 52
      (rne num (den * 2 ^ s) * 2 ^ s, 1)
  else
    let d := scaleUp den num den
    let s := 52 + d
    (rne (num * 2 ^ s) den, 2 ^ s)

/-- Render a number of hundredths as `<integer part>.<two digits>`. -/
def render2 (n : Nat) : Str :=
  natStr (n / 100) ++ str "." ++ [digitCh ((n % 100) / 10), digitCh (n % 10)]

/-- JavaScript `(num / den).toFixed(2)` (main.js lines 150 and 153): the
division is performed in IEEE-754 binary64 (`fdiv`), and ECMAScript `toFixed`
then picks the integer `n` with `n / 100` closest to the exact value of that
double, preferring the larger `n` on ties - that is, `n = ⌊100 · (p / q) + 1/2⌋`
- and prints it with exactly two fractional digits. -/
def toFixed2 (num den : Nat) : Str :=
  let v := fdiv num den
  render2 ((200 * v.1 + v.2) / (2 * v.2))

/-- `averageWordCount` (main.js line 150):
`totalNotesCount > 0 ? (totalWordCount / totalNotesCount).toFixed(2) : 0`.
Both branches are rendered as the text that the template interpolates. -/
def averageWordCount (notes : List Note) : Str :=
  if 0 < totalNotesCount notes then
    toFixed2 (totalWordCount notes) (totalNotesCount notes)
  else str "0"

/-- `averageLinkCount` (main.js line 153). -/
def averageLinkCount (notes : List Note) : Str :=
  if 0 < totalNotesCount notes then
    toFixed2 (totalLinkCount notes) (totalNotesCount notes)
  else str "0"

/-- The sampled current moment (`new Date()`, main.js line 38), carrying the
values of the five getters the script reads.  `month` is 0-based exactly as
JavaScript `getMonth()`. -/
structure Moment where
  fullYear : Nat
  month : Nat
  date : Nat
  hours : Nat
  minutes : Nat

/-- JavaScript `s.slice(-2)`: the last two characters. -/
def sliceLast2 (s : Str) : Str := s.drop (s.length - 2)

/-- `('0' + n).slice(-2)` (main.js lines 41-44): two-digit zero padding. -/
def pad2js (n : Nat) : Str := sliceLast2 (str "0" ++ natStr n)

/-- `timestampString` (main.js lines 39-45). -/
def timestampString (now : Moment) : Str :=
  natStr now.fullYear ++ pad2js (now.month + 1) ++ pad2js now.date ++
    pad2js now.hours ++ pad2js now.minutes

/-- `targetFilename` (main.js line 48): `` `${timestampString} ${targetTitle}` ``. -/
def targetFilename (targetTitle : Str) (now : Moment) : Str :=
  timestampString now ++ str " " ++ targetTitle

/-- `humanReadableDate` (main.js lines 52-56): `DD-MM-YYYY`. -/
def humanReadableDate (now : Moment) : Str :=
  pad2js now.date ++ str "-" ++ pad2js (now.month + 1) ++ str "-" ++ natStr now.fullYear

/-- `formattedTime` (main.js lines 59-68): 12-hour `HH:MM AM|PM`, with
`hours24 % 12 || 12` converting hour 0 to 12. -/
def formattedTime (now : Moment) : Str :=
  pad2js (if now.hours % 12 = 0 then 12 else now.hours % 12) ++ str ":" ++
    pad2js now.minutes ++ str " " ++
    (if 12 ≤ now.hours then str "PM" else str "AM")

/-- `body` (main.js lines 165-184): the produced document, transcribed from
the template literal.  The template literal opens with a newline immediately
after the backtick and closes with a newline before the final backtick, so the
document starts with a newline before the `---` line and ends with an extra
newline after the table. -/
def body (targetTitle : Str) (now : Moment) (notes : List Note) : Str :=
  str "\n---\nUUID:     ›[[" ++ timestampString now ++
  str "]]\ncdate:    " ++ humanReadableDate now ++ str " " ++ formattedTime now ++
  str " \ntags:     #statistics\n---\n# " ++ targetTitle ++
  str "\n\nZettelkasten Stats\n★★★★★★★★★★★★★★★★★★\nTotal Number of Notes in Zettelkasten: " ++
  natStr (totalNotesCount notes) ++
  str "\nTotal Word Count: " ++ natStr (totalWordCount notes) ++
  str "\nAverage Word Count: " ++ averageWordCount notes ++
  str "\nTotal Link Count: " ++ natStr (totalLinkCount notes) ++
  str "\nAverage Link Count: " ++ averageLinkCount notes ++
  str "\nTotal Notes in Proofing Oven: " ++ natStr (countProofingNotes notes) ++
  str "\n\nMonthly Breakdown:\n" ++ createMonthlyTable (countFilesByMonth notes) ++
  str "\n"

/- ------------------------------------------------------------------ -/
/- Claim-side definitions: independent formalisations of what the     -/
/- specification says, to be compared with the transcriptions above.  -/
/- ------------------------------------------------------------------ -/

/-- Claim-side word count, one token per maximal non-whitespace run:
`prevWs` records whether the previous character was whitespace (or the start
of the string), so a token is counted exactly when a non-whitespace character
follows whitespace or the start. -/
def tokenCountAux (prevWs : Bool) : Str → Nat
  | [] => 0
  | c :: rest =>
    if isWs c then tokenCountAux true rest
    else (if prevWs then 1 else 0) + tokenCountAux false rest

/-- Claim-side word count: the number of maximal whitespace-delimited
non-empty substrings of `s`. -/
def tokenCount (s : Str) : Nat := tokenCountAux true s

/-- Does a link pattern (a space, comma, or section mark immediately followed
by `[[`) occur at the head of `t`? -/
def linkAt : Str → Bool
  | a :: b :: c :: _ => isDelim a && b == '[' && c == '['
  | _ => false

/-- Claim-side link count: the number of positions of `s` at which the link
pattern occurs (matches are 3 characters long and can never overlap, because
`[` is not a delimiter character). -/
def linkOccurrences (s : Str) : Nat := s.tails.countP linkAt

/-- A run of 12 consecutive digits occurs in `s` at position `i`. -/
def runAt (s : Str) (i : Nat) : Prop :=
  ((s.drop i).take 12).length = 12 ∧ ((s.drop i).take 12).all Char.isDigit = true

/-- The claim-side key derivation of the monthly classifier:
`digits[0:4] ++ "-" ++ digits[4:6]`. -/
def keyOf (d : Str) : Str := d.take 4 ++ str "-" ++ (d.drop 4).take 2

/-- The sorted list of distinct years appearing as key prefixes of a
month-count mapping (one table row per element). -/
def yearsOf (counts : MCounts) : List Str :=
  sortStr (dedupFirst (counts.map (fun p => p.1.take 4)))

/-- The year-column width: the longest of the literal header `Year` (4) and
any year key. -/
def yearWidth (counts : MCounts) : Nat :=
  ((yearsOf counts).map List.length).foldl max 4

/-- The key looked up for the cell of year `year` and month index `i`
(0-based): `year-01` through `year-12`. -/
def keyFor (year : Str) (i : Nat) : Str :=
  year ++ str "-" ++ padStart2 (natStr (i + 1))

/-- Claim-side header row (without its trailing newline): the year column
followed by the twelve month abbreviations, each padded to width 3. -/
def headerRow (w : Nat) : Str :=
  str "| " ++ padEnd (str "Year") w ++ str " | " ++
    List.intercalate (str " | ") (monthNames.map (fun mo => padEnd mo 3)) ++ str " |"

/-- Claim-side separator row (without its trailing newline). -/
def sepRow (w : Nat) : Str :=
  str "|" ++ List.replicate (w + 2) '-' ++ str "|" ++
    List.intercalate (str "|") (monthNames.map (fun _ => List.replicate 5 '-')) ++ str "|"

/-- Claim-side data row for one year (without its trailing newline): the
padded year, then one cell per month index 0-11, each cell holding the count
stored under `year-01` ... `year-12` (0 when absent) padded to width 3. -/
def dataRow (counts : MCounts) (w : Nat) (year : Str) : Str :=
  str "| " ++ padEnd year w ++ str " |" ++
    ((List.range 12).map
      (fun i => str " " ++ padEnd (natStr (getCount counts (keyFor year i))) 3 ++ str " |")).flatten

/-- The document shape asserted by the specification: the front-matter block
starting directly with `---`, the heading, a blank line, the six-metric stats
body, a blank line, the `Monthly Breakdown:` line, and the rendered table,
with no characters before the opening `---` and nothing after the table. -/
def specDoc (targetTitle : Str) (now : Moment) (notes : List Note) : Str :=
  str "---\nUUID:     ›[[" ++ timestampString now ++
  str "]]\ncdate:    " ++ humanReadableDate now ++ str " " ++ formattedTime now ++
  str " \ntags:     #statistics\n---\n# " ++ targetTitle ++
  str "\n\nZettelkasten Stats\n★★★★★★★★★★★★★★★★★★\nTotal Number of Notes in Zettelkasten: " ++
  natStr (totalNotesCount notes) ++
  str "\nTotal Word Count: " ++ natStr (totalWordCount notes) ++
  str "\nAverage Word Count: " ++ averageWordCount notes ++
  str "\nTotal Link Count: " ++ natStr (totalLinkCount notes) ++
  str "\nAverage Link Count: " ++ averageLinkCount notes ++
  str "\nTotal Notes in Proofing Oven: " ++ natStr (countProofingNotes notes) ++
  str "\n\nMonthly Breakdown:\n" ++ createMonthlyTable (countFilesByMonth notes)

/- ------------------------------------------------------------------ -/
/- Helper lemmas                                                      -/
/- ------------------------------------------------------------------ -/

/-- Counting the non-empty tokens produced by the split state machine:
in a token state the accumulated `cur` contributes one word when non-empty,
and the remaining words are the maximal non-whitespace runs of the rest. -/
theorem splitWsAux_count (s : Str) :
    (∀ cur : Str,
      ((splitWsAux false cur s).filter (fun w => decide (w.length > 0))).length
        = if cur = [] then tokenCountAux true s
          else 1 + tokenCountAux false s)
    ∧ ((splitWsAux true [] s).filter (fun w => decide (w.length > 0))).length
        = tokenCountAux true s := by
  induction s with
  | nil =>
    refine ⟨fun cur => ?_, by simp [splitWsAux, tokenCountAux]⟩
    cases cur with
    | nil => simp [splitWsAux, tokenCountAux]
    | cons d ds => simp [splitWsAux, tokenCountAux]
  | cons c rest ih =>
    by_cases hw : isWs c = true
    · refine ⟨fun cur => ?_, ?_⟩
      · cases cur with
        | nil => simp [splitWsAux, hw, ih.2, tokenCountAux]
        | cons d ds => simp [splitWsAux, hw, ih.2, tokenCountAux, Nat.add_comm]
      · simp [splitWsAux, hw, ih.2, tokenCountAux]
    · have hw' : isWs c = false := by rwa [Bool.not_eq_true] at hw
      refine ⟨fun cur => ?_, ?_⟩
      · cases cur with
        | nil =>
          have h1 := ih.1 [c]
          simp [splitWsAux, hw'] at h1 ⊢
          rw [h1]
          simp [tokenCountAux, hw']
        | cons d ds =>
          have h1 := ih.1 (c :: d :: ds)
          simp [splitWsAux, hw'] at h1 ⊢
          rw [h1]
          simp [tokenCountAux, hw']
      · have h1 := ih.1 [c]
        simp [splitWsAux, hw'] at h1 ⊢
        rw [h1]
        simp [tokenCountAux, hw']

/-- A string starting with a non-delimiter character has no link match at its
head. -/
theorem linkAt_cons_false {c : Char} (t : Str) (h : isDelim c = false) :
    linkAt (c :: t) = false := by
  match t with
  | [] => rfl
  | [b] => rfl
  | b :: d :: t' => simp [linkAt, h]

/-- Peeling one character off the claim-side link-occurrence count. -/
theorem linkOccurrences_cons (c : Char) (s : Str) :
    linkOccurrences (c :: s) =
      linkOccurrences s + (if linkAt (c :: s) then 1 else 0) := by
  simp [linkOccurrences, List.tails_cons, List.countP_cons]

/-- The scanning link counter agrees with the count of all occurrence
positions (matches can never overlap because `[` is not a delimiter). -/
theorem countLinks_eq_linkOccurrences (s : Str) :
    countLinks s = linkOccurrences s := by
  have key : ∀ n : Nat, ∀ s : Str, s.length ≤ n → countLinks s = linkOccurrences s := by
    intro n
    induction n with
    | zero =>
      intro s hs
      have : s = [] := List.length_eq_zero.mp (Nat.le_zero.mp hs)
      subst this
      simp [countLinks, linkOccurrences, List.tails, linkAt]
    | succ n ih =>
      intro s hs
      match s with
      | [] => simp [countLinks, linkOccurrences, List.tails, linkAt]
      | [a] => simp [countLinks, linkOccurrences, List.tails, linkAt, List.countP_cons]
      | [a, b] => simp [countLinks, linkOccurrences, List.tails, linkAt, List.countP_cons]
      | c1 :: c2 :: c3 :: rest =>
        simp only [List.length_cons] at hs
        by_cases hcond : (isDelim c1 && c2 == '[' && c3 == '[') = true
        · obtain ⟨h12, hc3⟩ := Bool.and_eq_true_iff.mp hcond
          obtain ⟨hd, hc2⟩ := Bool.and_eq_true_iff.mp h12
          have hc2' : c2 = '[' := by simpa using hc2
          have hc3' : c3 = '[' := by simpa using hc3
          subst hc2' hc3'
          have h1 : countLinks (c1 :: '[' :: '[' :: rest) = 1 + countLinks rest := by
            simp [countLinks, hd]
          rw [h1, ih rest (by omega), linkOccurrences_cons, linkOccurrences_cons,
            linkOccurrences_cons]
          have e1 : linkAt (c1 :: '[' :: '[' :: rest) = true := by simp [linkAt, hd]
          have e2 : linkAt ('[' :: '[' :: rest) = false := linkAt_cons_false _ (by rfl)
          have e3 : linkAt ('[' :: rest) = false := linkAt_cons_false _ (by rfl)
          rw [e1, e2, e3]
          simp [Nat.add_comm]
        · rw [Bool.not_eq_true] at hcond
          have h1 : countLinks (c1 :: c2 :: c3 :: rest) = countLinks (c2 :: c3 :: rest) := by
            simp [countLinks, hcond]
          rw [h1, ih (c2 :: c3 :: rest) (by simp; omega)]
          conv_rhs => rw [linkOccurrences_cons]
          have e1 : linkAt (c1 :: c2 :: c3 :: rest) = false := by simpa [linkAt] using hcond
          rw [e1]
          simp
  exact key s.length s (Nat.le_refl _)

/-- `prefixCheck` decides the prefix relation. -/
theorem prefixCheck_iff : ∀ needle hay : Str, prefixCheck needle hay = true ↔ needle <+: hay := by
  intro needle
  induction needle with
  | nil => intro hay; simp [prefixCheck, List.nil_prefix]
  | cons a as ih =>
    intro hay
    cases hay with
    | nil => simp [prefixCheck, List.prefix_nil]
    | cons b bs => simp [prefixCheck, List.cons_prefix_cons, ih]

/-- `includes` decides substring containment. -/
theorem includes_iff : ∀ hay needle : Str, includes hay needle = true ↔ needle <:+: hay := by
  intro hay
  induction hay with
  | nil =>
    intro needle
    rw [includes, prefixCheck_iff]
    simp [ List.prefix_nil,  List.infix_nil]
  | cons c rest ih =>
    intro needle
    by_cases hp : prefixCheck needle (c :: rest) = true
    · simp only [includes, hp, if_true, true_iff]
      exact ( List.infix_cons_iff).mpr (Or.inl ((prefixCheck_iff _ _).mp hp))
    · have hp' : prefixCheck needle (c :: rest) = false := by rwa [Bool.not_eq_true] at hp
      simp only [includes, hp', Bool.false_eq_true, if_false, ih]
      rw [ List.infix_cons_iff]
      constructor
      · exact Or.inr
      · rintro (h | h)
        · exact absurd ((prefixCheck_iff _ _).mpr h) hp
        · exact h

/-- Looking up the bumped key in the value-incrementing map. -/
theorem lookup_map_incr (m : MCounts) (k : Str) :
    (m.map (fun p => if p.1 = k then (p.1, p.2 + 1) else p)).lookup k
      = (m.lookup k).map (fun v => v + 1) := by
  induction m with
  | nil => simp
  | cons p rest ih =>
    obtain ⟨a, b⟩ := p
    by_cases h : a = k
    · have hb : (k == a) = true := by simpa using h.symm
      simp [List.map_cons, h, List.lookup_cons, hb]
    · have hb : (k == a) = false := by simpa using fun e => h e.symm
      simp [List.map_cons, h, List.lookup_cons, hb, ih]

/-- Looking up any other key is unaffected by the value-incrementing map. -/
theorem lookup_map_incr_other (m : MCounts) (k key : Str) (hne : k ≠ key) :
    (m.map (fun p => if p.1 = key then (p.1, p.2 + 1) else p)).lookup k
      = m.lookup k := by
  induction m with
  | nil => simp
  | cons p rest ih =>
    obtain ⟨a, b⟩ := p
    by_cases h : a = key
    · subst h
      have hb : (k == a) = false := by simpa using hne
      simp [List.map_cons, List.lookup_cons, hb, ih]
    · by_cases h2 : k = a
      · have hb : (k == a) = true := by simpa using h2
        simp [List.map_cons, h, List.lookup_cons, hb]
      · have hb : (k == a) = false := by simpa using h2
        simp [List.map_cons, h, List.lookup_cons, hb, ih]

/-- Bumping a key increments exactly that key's count. -/
theorem getCount_bump_self (m : MCounts) (k : Str) :
    getCount (bump m k) k = getCount m k + 1 := by
  unfold bump getCount
  by_cases h : (m.lookup k).isSome = true
  · rw [if_pos h, lookup_map_incr]
    obtain ⟨v, hv⟩ := Option.isSome_iff_exists.mp h
    simp [hv]
  · rw [if_neg h]
    have hnone : m.lookup k = none := Option.not_isSome_iff_eq_none.mp h
    rw [List.lookup_append, hnone]
    have hb : (k == k) = true := by simp
    simp [List.lookup_cons, hb]

/-- Bumping a key leaves every other key's count unchanged. -/
theorem getCount_bump_other (m : MCounts) (k k' : Str) (hne : k' ≠ k) :
    getCount (bump m k) k' = getCount m k' := by
  unfold bump getCount
  by_cases h : (m.lookup k).isSome = true
  · rw [if_pos h, lookup_map_incr_other m k' k hne]
  · rw [if_neg h, List.lookup_append]
    have hb : (k' == k) = false := by simpa using hne
    simp [List.lookup_cons, hb]

/-- A 12-digit run at position 0 is what `digitRunAt` tests. -/
theorem runAt_zero_iff (s : Str) : runAt s 0 ↔ digitRunAt s = true := by
  simp [runAt, digitRunAt, Bool.and_eq_true]

/-- Shifting a 12-digit-run position across a cons cell. -/
theorem runAt_succ (c : Char) (rest : Str) (i : Nat) :
    runAt (c :: rest) (i + 1) ↔ runAt rest i := by
  simp [runAt, List.drop_succ_cons]

/-- When the regex scan succeeds, it returns the 12 digits at the leftmost
position carrying a 12-digit run. -/
theorem match12_some_spec : ∀ s d, match12 s = some d →
    ∃ i, runAt s i ∧ d = (s.drop i).take 12 ∧ ∀ j, j < i → ¬ runAt s j := by
  intro s
  induction s with
  | nil => intro d h; simp [match12] at h
  | cons c rest ih =>
    intro d h
    rw [match12] at h
    by_cases hd : digitRunAt (c :: rest) = true
    · rw [if_pos hd] at h
      refine ⟨0, (runAt_zero_iff _).mpr hd, ?_, fun j hj => absurd hj (Nat.not_lt_zero j)⟩
      simpa using (Option.some_inj.mp h).symm
    · rw [if_neg hd] at h
      obtain ⟨i, hr, hd', hmin⟩ := ih d h
      refine ⟨i + 1, (runAt_succ _ _ _).mpr hr, by simpa [List.drop_succ_cons] using hd', ?_⟩
      intro j hj
      cases j with
      | zero => exact fun hr0 => hd ((runAt_zero_iff _).mp hr0)
      | succ j' =>
        exact fun hrj => hmin j' (Nat.lt_of_succ_lt_succ hj) ((runAt_succ _ _ _).mp hrj)

/-- When the regex scan fails, no position carries a 12-digit run. -/
theorem match12_none_spec : ∀ s, match12 s = none → ∀ i, ¬ runAt s i := by
  intro s
  induction s with
  | nil => intro _ i; simp [runAt]
  | cons c rest ih =>
    intro h i
    rw [match12] at h
    by_cases hd : digitRunAt (c :: rest) = true
    · rw [if_pos hd] at h; exact absurd h (by simp)
    · rw [if_neg hd] at h
      cases i with
      | zero => exact fun hr0 => hd ((runAt_zero_iff _).mp hr0)
      | succ j => exact fun hrj => ih h j ((runAt_succ _ _ _).mp hrj)

/-- Processing one more note at the end of the corpus: skip when the filename
has no 12-digit run, otherwise bump the key derived from the matched run. -/
theorem countFilesByMonth_append_single (pre : List Note) (note : Note) :
    countFilesByMonth (pre ++ [note]) =
      match match12 note.filename with
      | some d => bump (countFilesByMonth pre) (keyOf d)
      | none => countFilesByMonth pre := by
  unfold countFilesByMonth
  rw [List.foldl_append]
  cases h : match12 note.filename <;> simp [h, keyOf]

/-- Every character emitted by `digitCh` is a digit. -/
theorem digitCh_isDigit (m : Nat) : (digitCh m).isDigit = true := by
  rcases m with _|_|_|_|_|_|_|_|_|m <;> rfl

/-- Every character of a rendered natural number is a digit. -/
theorem natStrAux_digits : ∀ fuel n : Nat, ∀ c ∈ natStrAux fuel n, c.isDigit = true := by
  intro fuel
  induction fuel with
  | zero => intro n c hc; simp [natStrAux] at hc
  | succ fuel ih =>
    intro n c hc
    rw [natStrAux] at hc
    by_cases h : n < 10
    · rw [if_pos h] at hc
      simp at hc
      subst hc
      exact digitCh_isDigit n
    · rw [if_neg h] at hc
      rcases List.mem_append.mp hc with h1 | h1
      · exact ih _ c h1
      · simp at h1
        subst h1
        exact digitCh_isDigit _

/-- `render2` always renders with exactly two decimal places: a dot-free
integer part followed by `.` and two digit characters. -/
theorem render2_two_decimals (n : Nat) :
    ∃ pre a b, render2 n = pre ++ str "." ++ [a, b]
      ∧ a.isDigit = true ∧ b.isDigit = true ∧ ∀ c ∈ pre, c ≠ '.' := by
  refine ⟨natStr (n / 100), digitCh ((n % 100) / 10), digitCh (n % 10), rfl,
    digitCh_isDigit _, digitCh_isDigit _, ?_⟩
  intro c hc he
  have hdig := natStrAux_digits _ _ c hc
  rw [he] at hdig
  exact absurd hdig (by decide)

/-- `toFixed2` always renders with exactly two decimal places. -/
theorem toFixed2_two_decimals (x n : Nat) :
    ∃ pre a b, toFixed2 x n = pre ++ str "." ++ [a, b]
      ∧ a.isDigit = true ∧ b.isDigit = true ∧ ∀ c ∈ pre, c ≠ '.' := by
  simp only [toFixed2]
  exact render2_two_decimals _

/-- `lexLt` is asymmetric. -/
theorem lexLt_asymm : ∀ a b : Str, lexLt a b = true → lexLt b a = false := by
  intro a
  induction a with
  | nil =>
    intro b h
    cases b with
    | nil => simp [lexLt] at h
    | cons y ys => simp [lexLt]
  | cons x xs ih =>
    intro b h
    cases b with
    | nil => simp [lexLt] at h
    | cons y ys =>
      rw [lexLt] at h ⊢
      rcases lt_trichotomy x y with hxy | heq | hyx
      · rw [if_neg (asymm hxy), if_pos hxy]
      · subst heq
        rw [if_neg (lt_irrefl x), if_neg (lt_irrefl x)] at h ⊢
        exact ih ys h
      · rw [if_neg (asymm hyx), if_pos hyx] at h
        exact absurd h Bool.false_ne_true

/-- `lexLt` is trichotomous. -/
theorem lexLt_trichotomy : ∀ a b : Str, lexLt a b = true ∨ lexLt b a = true ∨ a = b := by
  intro a
  induction a with
  | nil =>
    intro b
    cases b with
    | nil => right; right; rfl
    | cons y ys => left; simp [lexLt]
  | cons x xs ih =>
    intro b
    cases b with
    | nil => right; left; simp [lexLt]
    | cons y ys =>
      rcases lt_trichotomy x y with hxy | heq | hyx
      · left; rw [lexLt, if_pos hxy]
      · subst heq
        rcases ih ys with h | h | h
        · left; rw [lexLt, if_neg (lt_irrefl x), if_neg (lt_irrefl x)]; exact h
        · right; left; rw [lexLt, if_neg (lt_irrefl x), if_neg (lt_irrefl x)]; exact h
        · right; right; rw [h]
      · right; left; rw [lexLt, if_pos hyx]

/-- `lexLe` is total. -/
theorem lexLe_total (a b : Str) : lexLe a b = true ∨ lexLe b a = true := by
  unfold lexLe
  by_cases h : lexLt b a = true
  · right
    rw [lexLt_asymm b a h]
    rfl
  · left
    rw [Bool.not_eq_true] at h
    rw [h]
    rfl

/-- A reflection of `lexLt` into `lexLe`. -/
theorem lexLe_of_lexLt {a b : Str} (h : lexLt a b = true) : lexLe a b = true := by
  unfold lexLe
  rw [lexLt_asymm a b h]
  rfl

/-- `lexLe` together with distinctness gives `lexLt`. -/
theorem lexLt_of_lexLe_ne {a b : Str} (hle : lexLe a b = true) (hne : a ≠ b) :
    lexLt a b = true := by
  rcases lexLt_trichotomy a b with h | h | h
  · exact h
  · exfalso
    unfold lexLe at hle
    rw [h] at hle
    simp at hle
  · exact absurd h hne

/-- The comparison property behind transitivity of `lexLe`. -/
theorem lexLt_comparison : ∀ c a b : Str, lexLt c a = true →
    lexLt c b = true ∨ lexLt b a = true := by
  intro c
  induction c with
  | nil =>
    intro a b h
    cases a with
    | nil => simp [lexLt] at h
    | cons w ws =>
      cases b with
      | nil => right; simp [lexLt]
      | cons y ys => left; simp [lexLt]
  | cons z zs ih =>
    intro a b h
    cases a with
    | nil => simp [lexLt] at h
    | cons w ws =>
      cases b with
      | nil => right; simp [lexLt]
      | cons y ys =>
        rw [lexLt] at h
        rcases lt_trichotomy z w with hzw | heq | hwz
        · by_cases hzy : z < y
          · left; rw [lexLt, if_pos hzy]
          · right
            have hyw : y < w := lt_of_le_of_lt (le_of_not_lt hzy) hzw
            rw [lexLt, if_pos hyw]
        · subst heq
          rw [if_neg (lt_irrefl z), if_neg (lt_irrefl z)] at h
          rcases lt_trichotomy z y with hzy | heqy | hyz
          · left; rw [lexLt, if_pos hzy]
          · subst heqy
            rcases ih ws ys h with h' | h'
            · left; rw [lexLt, if_neg (lt_irrefl z), if_neg (lt_irrefl z)]; exact h'
            · right; rw [lexLt, if_neg (lt_irrefl z), if_neg (lt_irrefl z)]; exact h'
          · right; rw [lexLt, if_pos hyz]
        · rw [if_neg (asymm hwz), if_pos hwz] at h
          exact absurd h Bool.false_ne_true

/-- `lexLe` is transitive. -/
theorem lexLe_trans {a b c : Str} (h1 : lexLe a b = true) (h2 : lexLe b c = true) :
    lexLe a c = true := by
  unfold lexLe at h1 h2 ⊢
  by_cases h : lexLt c a = true
  · rcases lexLt_comparison c a b h with h' | h'
    · rw [h'] at h2; simp at h2
    · rw [h'] at h1; simp at h1
  · rw [Bool.not_eq_true] at h
    rw [h]
    rfl

/-- Membership in an insertion. -/
theorem mem_insertStr (x y : Str) : ∀ l : List Str, (x ∈ insertStr y l ↔ x = y ∨ x ∈ l) := by
  intro l
  induction l with
  | nil => simp [insertStr]
  | cons z zs ih =>
    rw [insertStr]
    by_cases h : lexLe y z = true
    · rw [if_pos h]
      simp
    · rw [if_neg h]
      simp [ih]
      tauto

/-- Inserting into a `lexLe`-sorted list keeps it sorted. -/
theorem pairwise_insertStr (x : Str) :
    ∀ l : List Str, List.Pairwise (fun a b => lexLe a b = true) l →
      List.Pairwise (fun a b => lexLe a b = true) (insertStr x l) := by
  intro l
  induction l with
  | nil => intro _; simp [insertStr]
  | cons z zs ih =>
    intro hp
    rw [List.pairwise_cons] at hp
    rw [insertStr]
    by_cases h : lexLe x z = true
    · rw [if_pos h]
      rw [List.pairwise_cons]
      refine ⟨?_, List.pairwise_cons.mpr hp⟩
      intro a ha
      rcases List.mem_cons.mp ha with rfl | ha'
      · exact h
      · exact lexLe_trans h (hp.1 a ha')
    · rw [if_neg h]
      rw [List.pairwise_cons]
      refine ⟨?_, ih hp.2⟩
      intro a ha
      rcases (mem_insertStr a x zs).mp ha with rfl | ha'
      · rcases lexLe_total a z with h' | h'
        · exact absurd h' h
        · exact h'
      · exact hp.1 a ha'

/-- Inserting a fresh element preserves `Nodup`. -/
theorem nodup_insertStr (x : Str) :
    ∀ l : List Str, x ∉ l → l.Nodup → (insertStr x l).Nodup := by
  intro l
  induction l with
  | nil => intro _ _; simp [insertStr]
  | cons z zs ih =>
    intro hx hn
    rw [List.nodup_cons] at hn
    rw [insertStr]
    by_cases h : lexLe x z = true
    · rw [if_pos h]
      exact List.nodup_cons.mpr ⟨hx, List.nodup_cons.mpr hn⟩
    · rw [if_neg h]
      refine List.nodup_cons.mpr ⟨?_, ih (fun hm => hx (List.mem_cons_of_mem z hm)) hn.2⟩
      intro hm
      rcases (mem_insertStr z x zs).mp hm with rfl | hm'
      · exact hx (List.mem_cons_self z zs)
      · exact hn.1 hm'

/-- Membership survives sorting. -/
theorem mem_sortStr (x : Str) : ∀ l : List Str, (x ∈ sortStr l ↔ x ∈ l) := by
  intro l
  induction l with
  | nil => simp [sortStr]
  | cons z zs ih =>
    rw [sortStr, mem_insertStr]
    simp [ih]

/-- The sorted output is `lexLe`-pairwise. -/
theorem pairwise_sortStr : ∀ l : List Str,
    List.Pairwise (fun a b => lexLe a b = true) (sortStr l) := by
  intro l
  induction l with
  | nil => simp [sortStr]
  | cons z zs ih => exact pairwise_insertStr z (sortStr zs) ih

/-- Sorting preserves `Nodup`. -/
theorem nodup_sortStr : ∀ l : List Str, l.Nodup → (sortStr l).Nodup := by
  intro l
  induction l with
  | nil => intro _; simp [sortStr]
  | cons z zs ih =>
    intro hn
    rw [List.nodup_cons] at hn
    exact nodup_insertStr z (sortStr zs) (fun h => hn.1 ((mem_sortStr z zs).mp h)) (ih hn.2)

/-- Membership in the first-occurrence deduplication. -/
theorem mem_dedupFirstAux (x : Str) :
    ∀ (l : List Str) (seen : List Str),
      (x ∈ dedupFirstAux seen l ↔ x ∈ l ∧ x ∉ seen) := by
  intro l
  induction l with
  | nil => intro seen; simp [dedupFirstAux]
  | cons y ys ih =>
    intro seen
    rw [dedupFirstAux]
    by_cases h : y ∈ seen
    · rw [if_pos h, ih]
      constructor
      · tauto
      · rintro ⟨hy, hns⟩
        rcases List.mem_cons.mp hy with rfl | hy'
        · exact absurd h hns
        · exact ⟨hy', hns⟩
    · rw [if_neg h]
      simp only [List.mem_cons, ih]
      constructor
      · rintro (rfl | ⟨hy, hns⟩)
        · exact ⟨Or.inl rfl, h⟩
        · exact ⟨Or.inr hy, fun hm => hns (Or.inr hm)⟩
      · rintro ⟨rfl | hy, hns⟩
        · exact Or.inl rfl
        · by_cases hxy : x = y
          · exact Or.inl hxy
          · exact Or.inr ⟨hy, fun hm => hm.elim hxy hns⟩

/-- The first-occurrence deduplication has no duplicates. -/
theorem nodup_dedupFirstAux :
    ∀ (l : List Str) (seen : List Str), (dedupFirstAux seen l).Nodup := by
  intro l
  induction l with
  | nil => intro seen; simp [dedupFirstAux]
  | cons y ys ih =>
    intro seen
    rw [dedupFirstAux]
    by_cases h : y ∈ seen
    · rw [if_pos h]; exact ih seen
    · rw [if_neg h]
      refine List.nodup_cons.mpr ⟨?_, ih (y :: seen)⟩
      intro hm
      exact ((mem_dedupFirstAux y ys (y :: seen)).mp hm).2 (List.mem_cons_self y seen)

/-- Folding string concatenation over a list is appending the flattened
per-element strings. -/
theorem foldl_append_flatten {α : Type} (f : α → Str) :
    ∀ (l : List α) (init : Str),
      l.foldl (fun acc x => acc ++ f x) init = init ++ (l.map f).flatten := by
  intro l
  induction l with
  | nil => intro init; simp
  | cons a t ih =>
    intro init
    rw [List.foldl_cons, ih, List.map_cons, List.flatten_cons, List.append_assoc]

/-- One data row of the transcribed table, rewritten from the indexed fold
over the month list into the claim-side `dataRow`. -/
theorem monthRow_eq (counts : MCounts) (w : Nat) (year : Str) :
    monthNames.enum.foldl
        (fun row mi =>
          row ++
            (str " " ++
              padEnd (natStr (getCount counts (year ++ str "-" ++ padStart2 (natStr (mi.1 + 1))))) 3 ++
              str " |"))
        (str "| " ++ padEnd year w ++ str " |")
      = dataRow counts w year := by
  have henum : monthNames.enum =
      [(0, str "Jan"), (1, str "Feb"), (2, str "Mar"), (3, str "Apr"),
       (4, str "May"), (5, str "Jun"), (6, str "Jul"), (7, str "Aug"),
       (8, str "Sep"), (9, str "Oct"), (10, str "Nov"), (11, str "Dec")] := by decide
  have hrange : List.range 12 = [0, 1, 2, 3, 4, 5, 6, 7, 8, 9, 10, 11] := by decide
  rw [foldl_append_flatten, henum]
  simp only [dataRow, keyFor, hrange]
  simp [List.append_assoc]

/-- The transcribed `createMonthlyTable` decomposes into the claim-side
header row, separator row, and one data row per sorted distinct year, each
line followed by a newline. -/
theorem createMonthlyTable_decomp (counts : MCounts) :
    createMonthlyTable counts =
      ((headerRow (yearWidth counts) :: sepRow (yearWidth counts) ::
          (yearsOf counts).map (dataRow counts (yearWidth counts))).map
        (fun ln => ln ++ str "\n")).flatten := by
  have hmw : (monthNames.map List.length).foldl max 0 = 3 := by decide
  have hy4 : (str "Year").length = 4 := rfl
  have h5 : 3 + 2 = 5 := rfl
  simp only [createMonthlyTable, hmw, hy4, h5, monthRow_eq]
  rw [foldl_append_flatten]
  simp only [headerRow, sepRow, yearWidth, yearsOf, List.map_cons, List.map_map,
    List.flatten_cons, Function.comp_def, List.append_assoc]

/- ------------------------------------------------------------------ -/
/- Claims                                                             -/
/- ------------------------------------------------------------------ -/

/-- Claim C5: the word counter returns the number of maximal
whitespace-delimited non-empty substrings — splitting on runs of whitespace,
with leading and trailing whitespace producing no tokens — so the empty
string and whitespace-only strings yield 0 and `"a  b   c"` yields 3. -/
theorem claim_C5_word_counter :
    (∀ s : Str, countWords s = tokenCount s)
    ∧ countWords (str "") = 0
    ∧ countWords (str "a  b   c") = 3
    ∧ countWords (str " \t  ") = 0 := by
  refine ⟨fun s => ?_, by decide, by decide, by decide⟩
  have h := (splitWsAux_count s).1 []
  simpa [countWords, splitWs] using h

/-- Claim C4: the link counter returns the number of (non-overlapping)
occurrences of a space, comma, or section mark immediately followed by `[[`;
it returns 0 when there are none, and a `[[link]]` at the very start of the
text contributes 0 matches. -/
theorem claim_C4_link_counter :
    (∀ s : Str, countLinks s = linkOccurrences s)
    ∧ countLinks (str "no links here") = 0
    ∧ countLinks (str "see , [[note]] and §[[other]]") = 2
    ∧ countLinks (str "[[link]] with nothing before it") = 0 :=
  ⟨countLinks_eq_linkOccurrences, by decide, by decide, by decide⟩

/-- Claim C8: the tag matcher counts the notes whose content contains the
literal `#proofing` as a substring — no case or whitespace normalisation, no
word-boundary check — so `#proofingnotes` is counted and `#Proofing` is not. -/
theorem claim_C8_tag_matcher :
    (∀ notes : List Note,
       countProofingNotes notes =
         notes.countP (fun note => decide ((str "#proofing") <:+: note.content)))
    ∧ countProofingNotes [⟨str "ab #proofing cd", str "f1"⟩] = 1
    ∧ countProofingNotes [⟨str "ab #proofingnotes cd", str "f2"⟩] = 1
    ∧ countProofingNotes [⟨str "ab #Proofing cd", str "f3"⟩] = 0 := by
  refine ⟨fun notes => ?_, by decide, by decide, by decide⟩
  rw [countProofingNotes, List.countP_eq_length_filter]
  congr 1
  apply List.filter_congr
  intro note _
  rw [Bool.eq_iff_iff, decide_eq_true_iff]
  exact includes_iff note.content (str "#proofing")

/-- Claim C3: the monthly classifier builds the counts by, for each note,
taking the first run of 12 consecutive digits found anywhere in its filename
(a longer digit run contributes its first 12 digits), keying the increment by
`digits[0:4] ++ "-" ++ digits[4:6]` with no validation of the month part, and
silently skipping every note whose filename contains no 12-digit run. -/
theorem claim_C3_monthly_classifier :
    (∀ (pre : List Note) (note : Note),
        countFilesByMonth (pre ++ [note]) =
          match match12 note.filename with
          | some d => bump (countFilesByMonth pre) (keyOf d)
          | none => countFilesByMonth pre)
    ∧ (∀ s d, match12 s = some d →
        ∃ i, runAt s i ∧ d = (s.drop i).take 12 ∧ ∀ j, j < i → ¬ runAt s j)
    ∧ (∀ s, match12 s = none → ∀ i, ¬ runAt s i)
    ∧ (∀ (m : MCounts) (k : Str), getCount (bump m k) k = getCount m k + 1)
    ∧ (∀ (m : MCounts) (k k' : Str), k' ≠ k → getCount (bump m k) k' = getCount m k')
    ∧ countFilesByMonth [⟨[], str "202403151230 My Note"⟩] = [(str "2024-03", 1)]
    ∧ countFilesByMonth [⟨[], str "no timestamp here"⟩] = []
    ∧ match12 (str "x1234567890123 note") = some (str "123456789012")
    ∧ countFilesByMonth [⟨[], str "199913010101 month 13"⟩] = [(str "1999-13", 1)] :=
  ⟨countFilesByMonth_append_single, match12_some_spec, match12_none_spec,
    getCount_bump_self, fun m k k' h => getCount_bump_other m k k' h,
    by decide, by decide, by decide, by decide⟩

/-- Witness for claim C3: the general parts applied at concrete inputs,
discharging each hypothesis there. -/
theorem claim_C3_monthly_classifier_witness :
    countFilesByMonth ([] ++ [⟨[], str "202403151230"⟩]) =
        bump (countFilesByMonth []) (keyOf (str "202403151230"))
    ∧ (∃ i, runAt (str "x1234567890123 note") i
        ∧ (str "123456789012") = ((str "x1234567890123 note").drop i).take 12
        ∧ ∀ j, j < i → ¬ runAt (str "x1234567890123 note") j)
    ∧ ¬ runAt (str "no timestamp here") 0
    ∧ getCount (bump [(str "2024-03", 1)] (str "2024-03")) (str "2024-03")
        = getCount [(str "2024-03", 1)] (str "2024-03") + 1
    ∧ getCount (bump [(str "2024-03", 1)] (str "2024-03")) (str "1999-13")
        = getCount [(str "2024-03", 1)] (str "1999-13") := by
  refine ⟨?_, ?_, ?_, ?_, ?_⟩
  · exact claim_C3_monthly_classifier.1 [] ⟨[], str "202403151230"⟩
  · exact claim_C3_monthly_classifier.2.1 (str "x1234567890123 note") (str "123456789012")
      (by decide)
  · exact claim_C3_monthly_classifier.2.2.1 (str "no timestamp here") (by decide) 0
  · exact claim_C3_monthly_classifier.2.2.2.1 [(str "2024-03", 1)] (str "2024-03")
  · exact claim_C3_monthly_classifier.2.2.2.2.1 [(str "2024-03", 1)] (str "2024-03")
      (str "1999-13") (by decide)

/-- Claim C7: for an empty corpus both averages are the literal `0` (no
division-by-zero failure, no NaN); for a non-empty corpus each average is the
corresponding total divided by the note count, rendered with exactly two
decimal places. -/
theorem claim_C7_averages :
    averageWordCount [] = str "0"
    ∧ averageLinkCount [] = str "0"
    ∧ (∀ notes : List Note, notes ≠ [] →
        averageWordCount notes = toFixed2 (totalWordCount notes) (totalNotesCount notes)
        ∧ averageLinkCount notes = toFixed2 (totalLinkCount notes) (totalNotesCount notes)
        ∧ (∃ pre a b, averageWordCount notes = pre ++ str "." ++ [a, b]
            ∧ a.isDigit = true ∧ b.isDigit = true ∧ ∀ c ∈ pre, c ≠ '.')
        ∧ (∃ pre a b, averageLinkCount notes = pre ++ str "." ++ [a, b]
            ∧ a.isDigit = true ∧ b.isDigit = true ∧ ∀ c ∈ pre, c ≠ '.')) := by
  refine ⟨rfl, rfl, fun notes h => ?_⟩
  have hpos : 0 < totalNotesCount notes := List.length_pos.mpr h
  have hw : averageWordCount notes = toFixed2 (totalWordCount notes) (totalNotesCount notes) := by
    unfold averageWordCount
    rw [if_pos hpos]
  have hl : averageLinkCount notes = toFixed2 (totalLinkCount notes) (totalNotesCount notes) := by
    unfold averageLinkCount
    rw [if_pos hpos]
  refine ⟨hw, hl, ?_, ?_⟩
  · rw [hw]; exact toFixed2_two_decimals _ _
  · rw [hl]; exact toFixed2_two_decimals _ _

/-- Witness for claim C7: a one-note corpus, whose note has two words and one
link, so the averages render as `2.00` and `1.00`. -/
theorem claim_C7_averages_witness :
    averageWordCount [⟨str "hello ,[[x]]", str "f"⟩]
        = toFixed2 (totalWordCount [⟨str "hello ,[[x]]", str "f"⟩])
            (totalNotesCount [⟨str "hello ,[[x]]", str "f"⟩])
    ∧ (∃ pre a b, averageWordCount [⟨str "hello ,[[x]]", str "f"⟩] = pre ++ str "." ++ [a, b]
        ∧ a.isDigit = true ∧ b.isDigit = true ∧ ∀ c ∈ pre, c ≠ '.') := by
  have h := claim_C7_averages.2.2 [⟨str "hello ,[[x]]", str "f"⟩] (List.cons_ne_nil _ _)
  exact ⟨h.1, h.2.2.1⟩

/-- Claim C10: on the empty mapping the table renderer is total and returns
exactly the header row (year column padded to width 4, the length of `Year`)
and the separator row, with zero data rows; the width computations over the
empty set of years and counts do not fail. -/
theorem claim_C10_empty_table :
    createMonthlyTable [] =
      str "| Year | Jan | Feb | Mar | Apr | May | Jun | Jul | Aug | Sep | Oct | Nov | Dec |\n|------|-----|-----|-----|-----|-----|-----|-----|-----|-----|-----|-----|-----|\n"
    ∧ yearWidth [] = 4 := by
  exact ⟨by decide, rfl⟩

/-- Claim C6: the rendered table is one header row, one separator row, and
exactly one data row per distinct year appearing in the mapping's keys, rows
ordered by strictly ascending lexicographic year, no rows synthesized for
absent years, and every cell whose `year-month` key is absent rendering the
count 0 (`dataRow` looks every cell up with default 0); on the spec's example
the cells (2024, Dec) = 5 and (2023, Dec) = 0. -/
theorem claim_C6_table_rows :
    (∀ counts : MCounts,
        createMonthlyTable counts =
          ((headerRow (yearWidth counts) :: sepRow (yearWidth counts) ::
              (yearsOf counts).map (dataRow counts (yearWidth counts))).map
            (fun ln => ln ++ str "\n")).flatten
        ∧ List.Pairwise (fun a b => lexLt a b = true) (yearsOf counts)
        ∧ (∀ y, y ∈ yearsOf counts ↔ ∃ p ∈ counts, p.1.take 4 = y))
    ∧ createMonthlyTable [(str "2023-01", 2), (str "2024-12", 5)] =
        str "| Year | Jan | Feb | Mar | Apr | May | Jun | Jul | Aug | Sep | Oct | Nov | Dec |\n|------|-----|-----|-----|-----|-----|-----|-----|-----|-----|-----|-----|-----|\n| 2023 | 2   | 0   | 0   | 0   | 0   | 0   | 0   | 0   | 0   | 0   | 0   | 0   |\n| 2024 | 0   | 0   | 0   | 0   | 0   | 0   | 0   | 0   | 0   | 0   | 0   | 5   |\n"
    ∧ yearsOf [(str "2023-01", 2), (str "2024-12", 5)] = [str "2023", str "2024"]
    ∧ getCount [(str "2023-01", 2), (str "2024-12", 5)] (keyFor (str "2024") 11) = 5
    ∧ getCount [(str "2023-01", 2), (str "2024-12", 5)] (keyFor (str "2023") 11) = 0 := by
  refine ⟨fun counts => ⟨createMonthlyTable_decomp counts, ?_, ?_⟩,
    by decide, by decide, by decide, by decide⟩
  · have hle := pairwise_sortStr (dedupFirst (counts.map (fun p => p.1.take 4)))
    have hnd : (sortStr (dedupFirst (counts.map (fun p => p.1.take 4)))).Nodup :=
      nodup_sortStr _ (nodup_dedupFirstAux _ [])
    exact (hle.and hnd).imp (fun h => lexLt_of_lexLe_ne h.1 h.2)
  · intro y
    rw [yearsOf, mem_sortStr, dedupFirst, mem_dedupFirstAux]
    simp

/-- Claim C9: a key whose month part lies outside `01`-`12` still contributes
a data row for its year, but its stored count appears in no cell: the table
depends on the mapping only through the distinct years of its keys and the
counts looked up under the keys `year-01` ... `year-12`. -/
theorem claim_C9_invalid_month_key :
    (∀ (counts : MCounts) (p : Str × Nat), p ∈ counts → p.1.take 4 ∈ yearsOf counts)
    ∧ (∀ c1 c2 : MCounts, yearsOf c1 = yearsOf c2 →
        (∀ y ∈ yearsOf c1, ∀ i, i < 12 →
          getCount c1 (keyFor y i) = getCount c2 (keyFor y i)) →
        createMonthlyTable c1 = createMonthlyTable c2) := by
  constructor
  · intro counts p hp
    rw [yearsOf, mem_sortStr, dedupFirst, mem_dedupFirstAux]
    exact ⟨List.mem_map.mpr ⟨p, hp, rfl⟩, by simp⟩
  · intro c1 c2 hyears hcells
    rw [createMonthlyTable_decomp c1, createMonthlyTable_decomp c2]
    have hw : yearWidth c1 = yearWidth c2 := by rw [yearWidth, yearWidth, hyears]
    rw [hyears, hw]
    have hrows : (yearsOf c2).map (dataRow c1 (yearWidth c2))
        = (yearsOf c2).map (dataRow c2 (yearWidth c2)) := by
      apply List.map_congr_left
      intro y hy
      have hy' : y ∈ yearsOf c1 := by rw [hyears]; exact hy
      have hcell :
          ((List.range 12).map
            (fun i => str " " ++ padEnd (natStr (getCount c1 (keyFor y i))) 3 ++ str " |"))
          = ((List.range 12).map
            (fun i => str " " ++ padEnd (natStr (getCount c2 (keyFor y i))) 3 ++ str " |")) := by
        apply List.map_congr_left
        intro i hi
        rw [hcells y hy' i (List.mem_range.mp hi)]
      simp only [dataRow, hcell]
    rw [hrows]

/-- Witness for claim C9: the out-of-range key `2024-13` produces a `2024`
row, and replacing its stored count (7 versus 0) leaves the rendered table
unchanged. -/
theorem claim_C9_invalid_month_key_witness :
    (str "2024-13", 7).1.take 4 ∈ yearsOf [(str "2024-13", 7)]
    ∧ createMonthlyTable [(str "2024-13", 7)] = createMonthlyTable [(str "2024-13", 0)] := by
  constructor
  · exact claim_C9_invalid_month_key.1 [(str "2024-13", 7)] (str "2024-13", 7) (by decide)
  · exact claim_C9_invalid_month_key.2 [(str "2024-13", 7)] [(str "2024-13", 0)]
      (by decide) (by decide)

/-- Claim C2 counterexample: the produced document does not start with the
`---` line — the template literal opens with a newline, so there is one
character before the opening `---`. -/
theorem claim_C2_counterexample :
    body (str "T") ⟨2024, 7, 29, 14, 5⟩ [] ≠ specDoc (str "T") ⟨2024, 7, 29, 14, 5⟩ [] := by
  decide

/-- Claim C2 as amended: the produced document is exactly one newline, then
the front-matter block (`---`, the UUID, cdate and tags lines, `---`), the
heading line, a blank line, the six-metric stats body, a blank line, the
`Monthly Breakdown:` line and the rendered table, followed by one final
newline. -/
theorem claim_C2_document_shape_amended (targetTitle : Str) (now : Moment)
    (notes : List Note) :
    body targetTitle now notes = str "\n" ++ specDoc targetTitle now notes ++ str "\n" := by
  have h1 : str "\n---\nUUID:     ›[[" = str "\n" ++ str "---\nUUID:     ›[[" := rfl
  rw [body, specDoc, h1]
  simp [List.append_assoc]

/-- Claim C1 (code bug): at the failing input, the month cells are padded to
`maxMonthWidth = 3` only — the `1000` cell is 4 characters wide and every
other cell stays 3 wide, so the cell width is not the maximum of the month
abbreviation length and the longest rendered count (`maxCountWidth`, which
the source computes on line 124 but never uses). -/
theorem claim_C1_month_cell_padding_failing_input :
    createMonthlyTable [(str "2023-01", 1000)] =
      str "| Year | Jan | Feb | Mar | Apr | May | Jun | Jul | Aug | Sep | Oct | Nov | Dec |\n|------|-----|-----|-----|-----|-----|-----|-----|-----|-----|-----|-----|-----|\n| 2023 | 1000 | 0   | 0   | 0   | 0   | 0   | 0   | 0   | 0   | 0   | 0   | 0   |\n" := by
  decide

end ZKStats
